import Mathlib

/-!
Shallow embedding of the verbatim-correction-agent repository
(src/rules_manager.py, src/doc_processor.py, src/llm_client.py).

Texts are modelled as `List Char`.  Python's `re` module is an external
library: calls to `re.sub` with an arbitrary (user-supplied) regex pattern are
abstracted as a `RegexEngine` parameter that may fail (a malformed pattern
raises `re.error` in Python, modelled as `Except.error`).  The one `re.sub`
call whose pattern is first passed through `re.escape`
(the `case_insensitive` branch of `RulesManager.apply_rules_to_text`) is
modelled concretely, because on an escaped literal pattern `re.sub` is simply
leftmost non-overlapping literal case-insensitive replacement, with the
replacement string interpreted as a `re.sub` template (backslash escapes are
expanded).  Case folding is modelled at the ASCII level.
-/

namespace Verbatim

/-- ASCII lower-casing, modelling the case folding used by `re.IGNORECASE`
on ASCII input. -/
def charLower (c : Char) : Char :=
  if 'A' ≤ c ∧ c ≤ 'Z' then Char.ofNat (c.toNat + 32) else c

/-- Case-insensitive character comparison (ASCII). -/
def ciCharEq (a b : Char) : Bool :=
  charLower a = charLower b

/-- Does `s` start with the literal `pat` (exact character equality)? -/
def startsWithLit : List Char → List Char → Bool
  | [], _ => true
  | _ :: _, [] => false
  | a :: ps, b :: ss => a = b && startsWithLit ps ss

/-- Does `s` start with the literal `pat`, compared case-insensitively? -/
def startsWithCI : List Char → List Char → Bool
  | [], _ => true
  | _ :: _, [] => false
  | a :: ps, b :: ss => ciCharEq a b && startsWithCI ps ss

/-- Leftmost non-overlapping literal replacement, the scanning scheme shared
by Python's `str.replace` and by `re.sub` on an escaped literal pattern:
`test` decides whether `pat` matches at the current position; a match
consumes `pat.length` characters; an empty pattern inserts `repl` at every
position (Python: `"abc".replace("", "-") == "-a-b-c-"`, and likewise
`re.sub("", "-", "abc")`).  The `fuel` argument (called with the text's
length, which bounds the number of scanning steps) only makes the recursion
structural; the `0` case is never reached from `fuel = s.length`. -/
def replaceScan (test : List Char → List Char → Bool) (pat repl : List Char) :
    Nat → List Char → List Char
  | _, [] => if pat.isEmpty then repl else []
  | 0, s => s
  | fuel + 1, c :: rest =>
    if pat.isEmpty then
      repl ++ c :: replaceScan test pat repl fuel rest
    else if test pat (c :: rest) then
      repl ++ replaceScan test pat repl fuel (List.drop pat.length (c :: rest))
    else
      c :: replaceScan test pat repl fuel rest

/-- Model of Python's `str.replace(pat, repl)` (the `exact` branch). -/
def pyStrReplace (pat repl s : List Char) : List Char :=
  replaceScan startsWithLit pat repl s.length s

/-- Model of `re.sub(re.escape(pat), r, text, flags=re.IGNORECASE)` once the
replacement template `r` has already been expanded: leftmost non-overlapping
case-insensitive literal replacement. -/
def ciReplace (pat repl s : List Char) : List Char :=
  replaceScan startsWithCI pat repl s.length s

/-- Expansion of one escape character of a `re.sub` replacement template
(the subset of Python's template escapes modelled here; the pattern reaching
this code path is `re.escape`d, so it contains no groups and numeric group
references would be errors). -/
def templateEscape : Char → Option Char
  | '\\' => some '\\'
  | 'n' => some '\n'
  | 't' => some '\t'
  | 'r' => some '\r'
  | _ => none

/-- Model of Python's parsing/expansion of a `re.sub` replacement template:
a backslash introduces an escape (`\\`, `\n`, `\t`, `\r` modelled; any other
escape, including group references, which cannot refer into an escaped
literal pattern, and a trailing backslash, raises `re.error`). Characters
other than the backslash stand for themselves. -/
def expandTemplate : List Char → Except Unit (List Char)
  | [] => .ok []
  | c :: rest =>
    if c = '\\' then
      match rest with
      | [] => .error ()
      | d :: rest2 =>
        match templateEscape d with
        | some e =>
          match expandTemplate rest2 with
          | .ok t => .ok (e :: t)
          | .error er => .error er
        | none => .error ()
    else
      match expandTemplate rest with
      | .ok t => .ok (c :: t)
      | .error e => .error e

/-- Model of the whole `re.sub(re.escape(pat), repl, text, flags=re.IGNORECASE)`
call of the `case_insensitive` branch: the replacement template is parsed
(raising on a bad template) and every case-insensitive literal occurrence of
`pat` is replaced by the expansion. -/
def reSubEscapedCI (pat repl text : List Char) : Except Unit (List Char) :=
  match expandTemplate repl with
  | .ok r => .ok (ciReplace pat r text)
  | .error e => .error e

/-- Abstraction of `re.sub(pattern, repl, text)` for an arbitrary,
user-supplied pattern (the `regex` branch): the Python regex engine is an
external collaborator; it either returns a substituted text or raises
(e.g. `re.error` on a malformed pattern). -/
def RegexEngine : Type :=
  List Char → List Char → List Char → Except Unit (List Char)

/-- Embedding of `Rule` (src/rules_manager.py).  Field values are the
attribute values after construction; see `ruleInit` for `__init__`. -/
structure Rule where
  id : List Char
  name : List Char
  pattern : List Char
  replacement : List Char
  match_type : List Char
  notes : List Char
deriving DecidableEq, Repr

/-- Embedding of `Rule.__init__`: `fresh` stands for the `str(uuid.uuid4())`
that Python generates; the stored id is `id or str(uuid.uuid4())`, i.e. the
given id unless it is absent (`None`) or empty (falsy). -/
def ruleInit (fresh : List Char) (name pattern replacement match_type notes : List Char)
    (id : Option (List Char)) : Rule :=
  { id := match id with
      | some s => if s.isEmpty then fresh else s
      | none => fresh
    name := name
    pattern := pattern
    replacement := replacement
    match_type := match_type
    notes := notes }

/-- Embedding of one serialized rule record (`Rule.to_dict` output /
`Rule.from_dict` input).  `id`, `match_type` and `notes` are `Option`s
because `from_dict` reads them with `d.get` (absent keys allowed). -/
structure RuleDict where
  id : Option (List Char)
  name : List Char
  pattern : List Char
  replacement : List Char
  match_type : Option (List Char)
  notes : Option (List Char)
deriving DecidableEq, Repr

/-- Embedding of `Rule.to_dict`. -/
def to_dict (r : Rule) : RuleDict :=
  { id := some r.id
    name := r.name
    pattern := r.pattern
    replacement := r.replacement
    match_type := some r.match_type
    notes := some r.notes }

/-- Embedding of `Rule.from_dict` (which calls `Rule.__init__`, hence may
consume a fresh uuid when the record's id is absent or empty). -/
def from_dict (fresh : List Char) (d : RuleDict) : Rule :=
  ruleInit fresh d.name d.pattern d.replacement
    (d.match_type.getD ("exact".data)) (d.notes.getD []) d.id

/-- Embedding of `RulesManager.apply_rules_to_text`: every rule is applied in
insertion order, the output of each feeding the next; `exact` uses
`str.replace`, `case_insensitive` uses `re.sub` on the escaped pattern,
`regex` hands pattern and replacement to the regex engine unprotected (no
try/except in the source), and unknown match types are skipped. -/
def apply_rules_to_text (engine : RegexEngine) : List Rule → List Char → Except Unit (List Char)
  | [], out => .ok out
  | r :: rest, out =>
    if r.match_type = ("exact".data) then
      apply_rules_to_text engine rest (pyStrReplace r.pattern r.replacement out)
    else if r.match_type = ("case_insensitive".data) then
      match reSubEscapedCI r.pattern r.replacement out with
      | .ok out2 => apply_rules_to_text engine rest out2
      | .error e => .error e
    else if r.match_type = ("regex".data) then
      match engine r.pattern r.replacement out with
      | .ok out2 => apply_rules_to_text engine rest out2
      | .error e => .error e
    else
      apply_rules_to_text engine rest out

/-- State of one `RulesManager` instance: the in-memory rule list and the
content of its persisted storage file (`self.path`). -/
structure ManagerState where
  rules : List Rule
  stored : List RuleDict
deriving DecidableEq, Repr

/-- Embedding of `RulesManager.save`: writes the full in-memory collection,
serialized with `to_dict`, to the storage file. -/
def save (st : ManagerState) : ManagerState :=
  { st with stored := st.rules.map to_dict }

/-- Rule list produced by `RulesManager.load` from well-formed stored data
(`[Rule.from_dict(r) for r in data]`); `fs` enumerates the fresh uuids that
`Rule.__init__` would generate, one per record position. -/
def loadRules (fs : Nat → List Char) : List RuleDict → List Rule
  | [] => []
  | d :: rest => from_dict (fs 0) d :: loadRules (fun n => fs (n + 1)) rest

/-- Embedding of `RulesManager.load` on a readable, well-formed storage file:
the in-memory collection is replaced by the deserialized stored records. -/
def load (fs : Nat → List Char) (st : ManagerState) : ManagerState :=
  { st with rules := loadRules fs st.stored }

/-- Embedding of `RulesManager.add_rule`: constructs a `Rule` (with a fresh
uuid, since no id is supplied), appends it, saves, and returns its dict. -/
def add_rule (fresh name pattern replacement match_type notes : List Char)
    (st : ManagerState) : RuleDict × ManagerState :=
  let r := ruleInit fresh name pattern replacement match_type notes none
  let st2 := save { st with rules := st.rules ++ [r] }
  (to_dict r, st2)

/-- Embedding of `RulesManager.remove_rule`: the collection is replaced by
the rules whose id differs; if the length changed, the result is saved and
`True` returned, otherwise `False` (and no save). -/
def remove_rule (rule_id : List Char) (st : ManagerState) : Bool × ManagerState :=
  let newRules := st.rules.filter (fun r => r.id ≠ rule_id)
  if newRules.length ≠ st.rules.length then
    (true, save { st with rules := newRules })
  else
    (false, { st with rules := newRules })

/-- The keyword arguments accepted by `RulesManager.update_rule`: each of the
six `Rule` attributes may be supplied (`some`) or omitted / passed as `None`
(`none`); `update_rule` overwrites exactly the supplied, non-`None` ones. -/
structure UpdateFields where
  id : Option (List Char) := none
  name : Option (List Char) := none
  pattern : Option (List Char) := none
  replacement : Option (List Char) := none
  match_type : Option (List Char) := none
  notes : Option (List Char) := none
deriving DecidableEq, Repr

/-- The per-rule mutation performed by `update_rule`'s inner loop
(`setattr(r, k, v)` for every supplied non-`None` field). -/
def applyUpdate (kw : UpdateFields) (r : Rule) : Rule :=
  { id := kw.id.getD r.id
    name := kw.name.getD r.name
    pattern := kw.pattern.getD r.pattern
    replacement := kw.replacement.getD r.replacement
    match_type := kw.match_type.getD r.match_type
    notes := kw.notes.getD r.notes }

/-- The loop of `RulesManager.update_rule`: the first rule whose id matches
is mutated in place and its dict returned; later rules are not examined. -/
def updateRules (rule_id : List Char) (kw : UpdateFields) :
    List Rule → Option RuleDict × List Rule
  | [] => (none, [])
  | r :: rest =>
    if r.id = rule_id then
      (some (to_dict (applyUpdate kw r)), applyUpdate kw r :: rest)
    else
      let p := updateRules rule_id kw rest
      (p.1, r :: p.2)

/-- Embedding of `RulesManager.update_rule`: on a match the full collection
is saved and the updated rule's dict returned; otherwise `None` is returned
and nothing is saved. -/
def update_rule (rule_id : List Char) (kw : UpdateFields) (st : ManagerState) :
    Option RuleDict × ManagerState :=
  let p := updateRules rule_id kw st.rules
  match p.1 with
  | some d => (some d, save { st with rules := p.2 })
  | none => (none, { st with rules := p.2 })

/-- An external transform function (src/doc_processor.py): called on a text,
it either raises (`Except.error`) or returns a value that may be `None`
(normalized by the runner to the empty string) or a text. -/
def TransformFunc : Type :=
  List Char → Except Unit (Option (List Char))

/-- An LLM grammar-correction collaborator (`LLMClient.correct_grammar` as
seen from the orchestrator): it returns a corrected text or raises. -/
def LLM : Type :=
  List Char → Except Unit (List Char)

/-- Embedding of the `DocProcessor` configuration: an optional rule
collection (the `RulesManager`, reduced to the state `apply_rules_to_text`
reads), an optional grammar collaborator, the `apply_grammar` flag and the
ordered transform-function list. -/
structure DocProcessor where
  rules_manager : Option (List Rule)
  llm_client : Option LLM
  apply_grammar : Bool
  mcp_transform_funcs : List TransformFunc

/-- Embedding of `DocProcessor._apply_transforms`: each function runs in
order on the running text; a raise is logged and skipped (text unchanged at
that step); a `None` result becomes the empty string. -/
def applyTransforms : List TransformFunc → List Char → List Char
  | [], out => out
  | f :: fs, out =>
    match f out with
    | .error _ => applyTransforms fs out
    | .ok none => applyTransforms fs []
    | .ok (some s) => applyTransforms fs s

/-- Embedding of `DocProcessor._apply_local_rules`: delegates to the rules
manager when one is configured, identity otherwise. -/
def apply_local_rules (engine : RegexEngine) (p : DocProcessor) (text : List Char) :
    Except Unit (List Char) :=
  match p.rules_manager with
  | some rules => apply_rules_to_text engine rules text
  | none => .ok text

/-- Embedding of `DocProcessor._apply_llm`: the collaborator is called only
when `apply_grammar` is true and a client is configured; a raise is caught
and the input text returned unchanged. -/
def apply_llm (p : DocProcessor) (text : List Char) : List Char :=
  if p.apply_grammar then
    match p.llm_client with
    | some f =>
      match f text with
      | .ok out => out
      | .error _ => text
    | none => text
  else text

/-- Embedding of `DocProcessor.process_text`: transforms, then local rules,
then grammar when `apply_rules_first`; grammar, then transforms, then local
rules otherwise.  An uncaught exception of the rule engine propagates. -/
def process_text (engine : RegexEngine) (p : DocProcessor) (orig_text : List Char)
    (apply_rules_first : Bool) : Except Unit (List Char) :=
  if apply_rules_first then
    match apply_local_rules engine p (applyTransforms p.mcp_transform_funcs orig_text) with
    | .ok t => .ok (apply_llm p t)
    | .error e => .error e
  else
    apply_local_rules engine p (applyTransforms p.mcp_transform_funcs (apply_llm p orig_text))

/-- A paragraph of the document collaborator: an ordered list of writable
runs, each holding a text. -/
structure Paragraph where
  runs : List (List Char)
deriving DecidableEq, Repr

/-- A table cell: an ordered list of paragraphs. -/
structure Cell where
  paragraphs : List Paragraph
deriving DecidableEq, Repr

/-- A table row: an ordered list of cells. -/
structure Row where
  cells : List Cell
deriving DecidableEq, Repr

/-- A table: an ordered list of rows. -/
structure Table where
  rows : List Row
deriving DecidableEq, Repr

/-- A header or footer: an ordered list of paragraphs. -/
structure HeaderFooter where
  paragraphs : List Paragraph
deriving DecidableEq, Repr

/-- A document section, exposing its header and footer. -/
structure Section where
  header : HeaderFooter
  footer : HeaderFooter
deriving DecidableEq, Repr

/-- A document: body paragraphs, tables and sections, each in document
order. -/
structure Document where
  paragraphs : List Paragraph
  tables : List Table
  sections : List Section
deriving DecidableEq, Repr

/-- The readable full text of a paragraph (`paragraph.text`): the
concatenation of its run texts. -/
def paraText (p : Paragraph) : List Char :=
  p.runs.flatten

/-- Embedding of `DocProcessor._replace_paragraph_text`: every run is
cleared, then the first run receives the whole new text; if the paragraph
has no run, one is appended. -/
def replace_paragraph_text (newText : List Char) (p : Paragraph) : Paragraph :=
  match p.runs with
  | [] => { runs := [newText] }
  | _ :: rest => { runs := newText :: rest.map (fun _ => []) }

/-- The per-paragraph step of `DocProcessor.process_docx`: read the text,
process it (`proc` stands for `self.process_text(·, apply_rules_first)`),
and rewrite the paragraph only when the result differs. -/
def processParagraph (proc : List Char → Except Unit (List Char)) (p : Paragraph) :
    Except Unit Paragraph :=
  match proc (paraText p) with
  | .ok processed =>
    if processed ≠ paraText p then .ok (replace_paragraph_text processed p) else .ok p
  | .error e => .error e

/-- Sequential processing of a list of sub-structures, in order; the first
raise aborts the whole loop (as an uncaught Python exception would).  This is
the shape of every `for` loop of `process_docx`. -/
def processList (g : A → Except Unit B) : List A → Except Unit (List B)
  | [] => .ok []
  | x :: xs =>
    match g x with
    | .ok y =>
      match processList g xs with
      | .ok ys => .ok (y :: ys)
      | .error e => .error e
    | .error e => .error e

/-- Sequential processing of a paragraph list, in order. -/
def processParas (proc : List Char → Except Unit (List Char))
    (ps : List Paragraph) : Except Unit (List Paragraph) :=
  processList (processParagraph proc) ps

/-- Processing of one cell: its paragraphs in order. -/
def processCell (proc : List Char → Except Unit (List Char)) (c : Cell) :
    Except Unit Cell :=
  match processParas proc c.paragraphs with
  | .ok ps => .ok { paragraphs := ps }
  | .error e => .error e

/-- Processing of one row: its cells in order. -/
def processRow (proc : List Char → Except Unit (List Char)) (r : Row) :
    Except Unit Row :=
  match processList (processCell proc) r.cells with
  | .ok cs => .ok { cells := cs }
  | .error e => .error e

/-- Processing of one table: its rows in order. -/
def processTable (proc : List Char → Except Unit (List Char)) (t : Table) :
    Except Unit Table :=
  match processList (processRow proc) t.rows with
  | .ok rs => .ok { rows := rs }
  | .error e => .error e

/-- Processing of one section: its header's paragraphs, then its footer's
paragraphs (the order of the loop body of `process_docx`). -/
def processSection (proc : List Char → Except Unit (List Char)) (s : Section) :
    Except Unit Section :=
  match processParas proc s.header.paragraphs with
  | .ok hs =>
    match processParas proc s.footer.paragraphs with
    | .ok fs => .ok { header := { paragraphs := hs }, footer := { paragraphs := fs } }
    | .error e => .error e
  | .error e => .error e

/-- Embedding of the traversal of `DocProcessor.process_docx` (the document
open/save I/O at either end is outside the embedding): body paragraphs, then
tables (rows, cells, paragraphs in order), then each section's header and
footer. -/
def processDocxWith (proc : List Char → Except Unit (List Char)) (d : Document) :
    Except Unit Document :=
  match processParas proc d.paragraphs with
  | .ok body =>
    match processList (processTable proc) d.tables with
    | .ok ts =>
      match processList (processSection proc) d.sections with
      | .ok ss => .ok { paragraphs := body, tables := ts, sections := ss }
      | .error e => .error e
    | .error e => .error e
  | .error e => .error e

/-- Embedding of `DocProcessor.process_docx` proper: the traversal with
`self.process_text(·, apply_rules_first)` as the per-paragraph pipeline. -/
def process_docx (engine : RegexEngine) (p : DocProcessor) (apply_rules_first : Bool)
    (d : Document) : Except Unit Document :=
  processDocxWith (fun t => process_text engine p t apply_rules_first) d

/-- The sequence of paragraphs bound by the loops of `process_docx`, in
execution order: body paragraphs; table paragraphs (tables, rows, cells,
paragraphs in order); then, for each section in order, its header's
paragraphs followed by its footer's paragraphs. -/
def docxVisitSequence (d : Document) : List Paragraph :=
  d.paragraphs
    ++ (d.tables.flatMap fun t => t.rows.flatMap fun r => r.cells.flatMap fun c => c.paragraphs)
    ++ (d.sections.flatMap fun s => s.header.paragraphs ++ s.footer.paragraphs)

/-- Modelled from the spec (traversal order, items 1-4 of the
Document Traversal contract): body paragraphs; table paragraphs; then ALL
section headers' paragraphs in section order; then ALL section footers'
paragraphs in section order.  Written to be compared with
`docxVisitSequence`, which transcribes the code. -/
def specVisitSequence (d : Document) : List Paragraph :=
  d.paragraphs
    ++ (d.tables.flatMap fun t => t.rows.flatMap fun r => r.cells.flatMap fun c => c.paragraphs)
    ++ (d.sections.flatMap fun s => s.header.paragraphs)
    ++ (d.sections.flatMap fun s => s.footer.paragraphs)

/-! ### Concrete fixtures used by counterexamples and witnesses -/

/-- A regex-engine behavior agreeing with Python's `re.sub` on the inputs of
the concrete theorems below: the pattern `(` is malformed, so `re.sub`
raises `re.error` before looking at the text; any other pattern used here
matches nothing and returns the text unchanged. -/
def badParenEngine : RegexEngine := fun pat _repl text =>
  if pat = ("(".data) then .error () else .ok text

/-- A regex engine that is never consulted by the rule lists it is used with
(they contain no `regex` rule); behavior: identity. -/
def nullEngine : RegexEngine := fun _pat _repl text => .ok text

/-- A rule whose `regex` pattern is the malformed regular expression `(`. -/
def ruleMalformed : Rule :=
  { id := ("r1".data), name := ("bad".data), pattern := ("(".data),
    replacement := ("x".data), match_type := ("regex".data), notes := [] }

/-- An ordinary `exact` rule replacing `b` with `c`. -/
def ruleBtoC : Rule :=
  { id := ("r2".data), name := ("b-to-c".data), pattern := ("b".data),
    replacement := ("c".data), match_type := ("exact".data), notes := [] }

/-- A `case_insensitive` rule whose replacement consists of two backslash
characters (the Python string `"\\\\"` of length 2). -/
def ruleBackslash : Rule :=
  { id := ("r3".data), name := ("bs".data), pattern := ("a".data),
    replacement := ('\\' :: '\\' :: []), match_type := ("case_insensitive".data), notes := [] }

/-- A `DocProcessor` holding the malformed-regex rule list, with transforms
empty and grammar disabled. -/
def dpMalformed : DocProcessor :=
  { rules_manager := some [ruleMalformed, ruleBtoC], llm_client := none,
    apply_grammar := false, mcp_transform_funcs := [] }

/-- A `DocProcessor` with every stage disabled or absent. -/
def dpEmpty : DocProcessor :=
  { rules_manager := none, llm_client := none,
    apply_grammar := false, mcp_transform_funcs := [] }

/-- A transform function that always raises. -/
def failTF : TransformFunc := fun _ => .error ()

/-- A transform function that succeeds, prepending `x`. -/
def consxTF : TransformFunc := fun t => .ok (some ('x' :: t))

/-- An LLM collaborator that always raises (e.g. unreachable endpoint). -/
def failLLM : LLM := fun _ => .error ()

/-- A `DocProcessor` with grammar enabled and the raising collaborator. -/
def dpFailLLM : DocProcessor :=
  { rules_manager := none, llm_client := some failLLM,
    apply_grammar := true, mcp_transform_funcs := [] }

/-! ### C1 -/

/-- Claim C1 (code_bug): the code contradicts the claim and the spec's
error-handling design.  With a rule list whose first rule has `match_type`
`regex` and the malformed pattern `(`, `apply_rules_to_text` raises
(`re.sub` raises `re.error` and the source has no try/except around the
`regex` branch), so the later `exact` rule is never applied and the error
propagates out of `process_text`; applying the remaining rules without the
malformed one would have succeeded and produced `acc`. -/
theorem apply_rules_malformed_regex_aborts :
    apply_rules_to_text badParenEngine [ruleMalformed, ruleBtoC] ("abc".data) = .error ()
      ∧ apply_rules_to_text badParenEngine [ruleBtoC] ("abc".data) = .ok ("acc".data)
      ∧ process_text badParenEngine dpMalformed ("abc".data) true = .error () := by
  refine ⟨rfl, ?_, rfl⟩
  rfl

/-! ### C2 -/

/-- Modelled from the spec: the `case_insensitive` contract as worded — all
case-insensitive occurrences of the literal `pattern` replaced with the
`replacement` verbatim (no interpretation of the replacement, case not
adapted). -/
def specCIApply (pat repl text : List Char) : List Char :=
  ciReplace pat repl text

/-- Claim C2, counterexample: the code passes the replacement string to
`re.sub` unescaped, so it is interpreted as a replacement template.  For the
rule `a -> "\\"` (a replacement of two backslash characters) applied to the
text `A`, the code produces a single backslash (the template escape `\\` is
expanded), not the two-character replacement verbatim as the claim states. -/
theorem ci_replacement_not_verbatim :
    apply_rules_to_text nullEngine [ruleBackslash] ("A".data) = .ok ('\\' :: [])
      ∧ specCIApply ("a".data) ('\\' :: '\\' :: []) ("A".data) = ('\\' :: '\\' :: [])
      ∧ ('\\' :: []) ≠ ('\\' :: '\\' :: []) := by
  exact ⟨rfl, rfl, by decide⟩

/-- A replacement template without backslashes expands to itself. -/
theorem expandTemplate_eq_of_no_backslash (repl : List Char) (h : '\\' ∉ repl) :
    expandTemplate repl = .ok repl := by
  induction repl with
  | nil => rfl
  | cons c rest ih =>
    have hc : c ≠ '\\' := fun hc => h (hc ▸ List.mem_cons_self c rest)
    have hrest : '\\' ∉ rest := fun hm => h (List.mem_cons_of_mem c hm)
    rw [expandTemplate.eq_def]
    simp only [if_neg hc, ih hrest]

/-- Claim C2, amended: for every `case_insensitive` rule whose replacement
contains no backslash character, and every input text, applying the rule
replaces all case-insensitive occurrences of the literal pattern with the
replacement verbatim (neither pattern nor replacement is interpreted as
regex syntax, and the replacement's case is not adapted to the matched
text); replacements containing a backslash are instead interpreted as
`re.sub` replacement templates. -/
theorem ci_rule_verbatim_of_no_backslash (engine : RegexEngine)
    (i nm pat repl nts text : List Char) (h : '\\' ∉ repl) :
    apply_rules_to_text engine
        [{ id := i, name := nm, pattern := pat, replacement := repl,
           match_type := ("case_insensitive".data), notes := nts }] text
      = .ok (specCIApply pat repl text) := by
  have h1 : ("case_insensitive".data : List Char) ≠ ("exact".data) := by decide
  simp only [apply_rules_to_text, if_neg h1, reSubEscapedCI,
    expandTemplate_eq_of_no_backslash repl h, specCIApply, if_true, eq_self_iff_true]

/-- Witness for `ci_rule_verbatim_of_no_backslash` at a concrete rule and
text. -/
theorem ci_rule_verbatim_witness :
    apply_rules_to_text nullEngine
        [{ id := ("r4".data), name := ("w".data), pattern := ("a".data),
           replacement := ("b".data), match_type := ("case_insensitive".data), notes := [] }]
        ("Aa".data)
      = .ok (specCIApply ("a".data) ("b".data) ("Aa".data)) :=
  ci_rule_verbatim_of_no_backslash nullEngine ("r4".data) ("w".data) ("a".data)
    ("b".data) [] ("Aa".data) (by decide)

/-! ### C3 -/

/-- Threading a transform chain through an appended list splits into the two
halves run in sequence. -/
theorem applyTransforms_append (xs ys : List TransformFunc) (t : List Char) :
    applyTransforms (xs ++ ys) t = applyTransforms ys (applyTransforms xs t) := by
  induction xs generalizing t with
  | nil => rfl
  | cons f fs ih =>
    simp only [List.cons_append, applyTransforms]
    cases hf : f t with
    | error e => exact ih t
    | ok v => cases v with
      | none => exact ih []
      | some s => exact ih s

/-- Claim C3 (confirmed): if the transform function `f`, run at its place in
the chain (on the text the preceding functions produce), raises, the running
text is left unchanged at that step, the chain continues, and the final
output equals the output of the chain with `f` removed. -/
theorem failing_transform_is_isolated (fs1 : List TransformFunc) (f : TransformFunc)
    (fs2 : List TransformFunc) (t : List Char)
    (h : f (applyTransforms fs1 t) = .error ()) :
    applyTransforms (fs1 ++ f :: fs2) t = applyTransforms (fs1 ++ fs2) t := by
  rw [applyTransforms_append, applyTransforms_append]
  simp only [applyTransforms, h]

/-- Witness for `failing_transform_is_isolated`: an always-raising function
between the start of the chain and a succeeding function. -/
theorem failing_transform_witness :
    applyTransforms ([] ++ failTF :: [consxTF]) ("ab".data)
      = applyTransforms ([] ++ [consxTF]) ("ab".data) :=
  failing_transform_is_isolated [] failTF [consxTF] ("ab".data) rfl

/-! ### C4 -/

/-- Claim C4 (confirmed): `process_text` with `apply_rules_first = true` is
the transform chain, then the local rules, then grammar correction, in that
order; with `apply_rules_first = false` it is grammar, then transforms, then
rules; each disabled or absent stage is the identity, and with every stage
disabled `process_text` returns its input unchanged. -/
theorem process_text_stage_order (engine : RegexEngine) (p : DocProcessor) (t : List Char) :
    (process_text engine p t true
        = match apply_local_rules engine p (applyTransforms p.mcp_transform_funcs t) with
          | .ok u => .ok (apply_llm p u)
          | .error e => .error e)
      ∧ (process_text engine p t false
          = apply_local_rules engine p (applyTransforms p.mcp_transform_funcs (apply_llm p t)))
      ∧ (p.mcp_transform_funcs = [] → applyTransforms p.mcp_transform_funcs t = t)
      ∧ (p.rules_manager = none → apply_local_rules engine p t = .ok t)
      ∧ ((p.apply_grammar = false ∨ p.llm_client = none) → apply_llm p t = t)
      ∧ (p.mcp_transform_funcs = [] → p.rules_manager = none →
          (p.apply_grammar = false ∨ p.llm_client = none) →
          ∀ b, process_text engine p t b = .ok t) := by
  refine ⟨rfl, rfl, ?_, ?_, ?_, ?_⟩
  · intro h; rw [h]; rfl
  · intro h; simp only [apply_local_rules, h]
  · rintro (h | h)
    · simp only [apply_llm, h]; rfl
    · simp only [apply_llm, h]; cases p.apply_grammar <;> rfl
  · intro h1 h2 h3 b
    have ht : applyTransforms p.mcp_transform_funcs t = t := by rw [h1]; rfl
    have hl : apply_llm p t = t := by
      rcases h3 with h | h
      · simp only [apply_llm, h]; rfl
      · simp only [apply_llm, h]; cases p.apply_grammar <;> rfl
    cases b <;> simp only [process_text, apply_local_rules, h2, ht, hl, if_true, if_false,
      Bool.false_eq_true]

/-- Witness for `process_text_stage_order`: with all stages disabled, both
orderings return the input text unchanged. -/
theorem process_text_stage_order_witness :
    process_text nullEngine dpEmpty ("hi".data) true = .ok ("hi".data)
      ∧ process_text nullEngine dpEmpty ("hi".data) false = .ok ("hi".data) :=
  ⟨(process_text_stage_order nullEngine dpEmpty ("hi".data)).2.2.2.2.2 rfl rfl
      (Or.inl rfl) true,
    (process_text_stage_order nullEngine dpEmpty ("hi".data)).2.2.2.2.2 rfl rfl
      (Or.inl rfl) false⟩

/-! ### C5 -/

/-- Claim C5 (confirmed): the grammar stage is the identity when
`apply_grammar` is false or no LLM client is configured; when the
collaborator raises, the stage returns its input unchanged; and when the
rule engine is absent, `process_text` returns normally for every collaborator
behavior (an LLM failure is caught inside `_apply_llm` and can never become
an error of `process_text`). -/
theorem grammar_failure_degrades_to_identity (p : DocProcessor) (t : List Char) :
    (p.apply_grammar = false → apply_llm p t = t)
      ∧ (p.llm_client = none → apply_llm p t = t)
      ∧ (∀ f, p.llm_client = some f → f t = .error () → apply_llm p t = t)
      ∧ (p.rules_manager = none →
          ∀ (engine : RegexEngine) (b : Bool), ∃ u, process_text engine p t b = .ok u) := by
  refine ⟨?_, ?_, ?_, ?_⟩
  · intro h; simp only [apply_llm, h]; rfl
  · intro h; simp only [apply_llm, h]; cases p.apply_grammar <;> rfl
  · intro f hf herr
    simp only [apply_llm, hf, herr]
    cases p.apply_grammar <;> rfl
  · intro h engine b
    cases b
    · refine ⟨applyTransforms p.mcp_transform_funcs (apply_llm p t), ?_⟩
      simp only [process_text, apply_local_rules, h, if_false, Bool.false_eq_true]
    · refine ⟨apply_llm p (applyTransforms p.mcp_transform_funcs t), ?_⟩
      simp only [process_text, apply_local_rules, h, if_true]

/-- Witness for `grammar_failure_degrades_to_identity`: a configured,
always-raising collaborator with grammar enabled. -/
theorem grammar_failure_witness :
    apply_llm dpFailLLM ("x".data) = ("x".data)
      ∧ ∃ u, process_text nullEngine dpFailLLM ("x".data) true = .ok u :=
  ⟨(grammar_failure_degrades_to_identity dpFailLLM ("x".data)).2.2.1 failLLM rfl rfl,
    (grammar_failure_degrades_to_identity dpFailLLM ("x".data)).2.2.2 rfl nullEngine true⟩

/-! ### C10 -/

/-- The ids of a rule list. -/
def idsOf (l : List Rule) : List (List Char) :=
  l.map (fun r => r.id)

/-- The loop of `update_rule` finds nothing when the id is absent, and the
rebuilt list is the original. -/
theorem updateRules_of_not_mem (rule_id : List Char) (kw : UpdateFields)
    (l : List Rule) (h : rule_id ∉ idsOf l) :
    updateRules rule_id kw l = (none, l) := by
  induction l with
  | nil => rfl
  | cons r rest ih =>
    have hr : r.id ≠ rule_id := by
      intro he
      exact h (he ▸ List.mem_map_of_mem (fun r => r.id) (List.mem_cons_self r rest))
    have hrest : rule_id ∉ idsOf rest := by
      intro hm
      rcases List.mem_map.mp hm with ⟨a, ha, hid⟩
      exact h (List.mem_map.mpr ⟨a, List.mem_cons_of_mem r ha, hid⟩)
    simp only [updateRules, if_neg hr, ih hrest]

/-- Claim C10 (confirmed): with an id not present in the collection,
`remove_rule` returns `False` and `update_rule` returns `None`, and in both
cases the in-memory rule list and the persisted storage file are unchanged
(no save happens). -/
theorem absent_id_mutations_are_noops (st : ManagerState) (rule_id : List Char)
    (kw : UpdateFields) (h : rule_id ∉ idsOf st.rules) :
    remove_rule rule_id st = (false, st) ∧ update_rule rule_id kw st = (none, st) := by
  constructor
  · have hall : ∀ r ∈ st.rules, r.id ≠ rule_id := by
      intro r hr he
      exact h (he ▸ List.mem_map_of_mem (fun r => r.id) hr)
    have hfil : st.rules.filter (fun r => r.id ≠ rule_id) = st.rules := by
      rw [List.filter_eq_self]
      intro a ha
      exact decide_eq_true (hall a ha)
    simp only [remove_rule, hfil, ne_eq, not_true_eq_false, if_false, ite_self]
  · simp only [update_rule, updateRules_of_not_mem rule_id kw st.rules h]

/-- Witness for `absent_id_mutations_are_noops`: a one-rule manager state and
a missing id. -/
theorem absent_id_mutations_witness :
    remove_rule ("zz".data) { rules := [ruleBtoC], stored := [] } =
        (false, { rules := [ruleBtoC], stored := [] })
      ∧ update_rule ("zz".data) {} { rules := [ruleBtoC], stored := [] } =
        (none, { rules := [ruleBtoC], stored := [] }) :=
  absent_id_mutations_are_noops { rules := [ruleBtoC], stored := [] } ("zz".data) {}
    (by decide)

/-! ### C7 -/

/-- Deserializing a serialized rule restores it exactly, provided its id is
nonempty (an empty id is falsy in Python, so `Rule.__init__` would replace
it with a fresh uuid). -/
theorem from_dict_to_dict (fresh : List Char) (r : Rule) (h : r.id ≠ []) :
    from_dict fresh (to_dict r) = r := by
  have hie : r.id.isEmpty = false := by
    cases hr : r.id with
    | nil => exact absurd hr h
    | cons a l => rfl
  simp only [from_dict, to_dict, ruleInit, Option.getD_some, hie, Bool.false_eq_true,
    if_false]

/-- `loadRules` over serialized rules restores the list, provided every id
is nonempty. -/
theorem loadRules_map_to_dict (fs : Nat → List Char) (l : List Rule)
    (h : ∀ r ∈ l, r.id ≠ []) : loadRules fs (l.map to_dict) = l := by
  induction l generalizing fs with
  | nil => rfl
  | cons r rest ih =>
    simp only [List.map_cons, loadRules]
    rw [from_dict_to_dict (fs 0) r (h r (List.mem_cons_self r rest)),
      ih (fun n => fs (n + 1)) (fun a ha => h a (List.mem_cons_of_mem r ha))]

/-- A manager state reached through the public API: one rule added with a
fresh uuid. -/
def stOneRule : ManagerState :=
  (add_rule ("uuid-1".data) ("n".data) ("p".data) ("q".data) ("exact".data) []
    { rules := [], stored := [] }).2

/-- The same state after `update_rule(rule_id, id="")`: `update_rule`
overwrites any attribute it is handed, including `id`, so the rule's id is
now the empty string. -/
def stEmptyId : ManagerState :=
  (update_rule ("uuid-1".data) { id := some [] } stOneRule).2

/-- The uuid supply consumed by a subsequent `load`. -/
def freshSupply : Nat → List Char := fun _ => "uuid-2".data

/-- Claim C7, counterexample: for the reachable rule list whose single
rule's id is the empty string, `load(save(X))` does not reproduce `X` — the
empty id is falsy, so `Rule.__init__` replaces it with a fresh uuid on
load.  For every other field and for nonempty ids the round trip is exact
(see `load_save_round_trip`). -/
theorem load_save_not_round_trip_on_empty_id :
    idsOf stEmptyId.rules = [[]]
      ∧ idsOf (load freshSupply (save stEmptyId)).rules = [("uuid-2".data)]
      ∧ (load freshSupply (save stEmptyId)).rules ≠ stEmptyId.rules := by
  exact ⟨rfl, rfl, by decide⟩

/-- Claim C7, amended: for every rule list in which every rule's id is a
nonempty string (which holds for every rule as constructed by
`Rule.__init__`, i.e. unless an id was later overwritten with an empty
string through `update_rule`), `save` followed by `load` reproduces the
identical rules, every field included, in the identical order. -/
theorem load_save_round_trip (fs : Nat → List Char) (st : ManagerState)
    (h : ∀ r ∈ st.rules, r.id ≠ []) :
    (load fs (save st)).rules = st.rules := by
  simp only [load, save]
  exact loadRules_map_to_dict fs st.rules h

/-- Witness for `load_save_round_trip` on a state built by `add_rule`. -/
theorem load_save_round_trip_witness :
    (load freshSupply (save stOneRule)).rules = stOneRule.rules :=
  load_save_round_trip freshSupply stOneRule (by decide)

/-! ### C8 -/

/-- The in-memory rule list after `remove_rule` is the filtered list,
whether or not a save happened. -/
theorem remove_rule_rules (rule_id : List Char) (st : ManagerState) :
    (remove_rule rule_id st).2.rules = st.rules.filter (fun r => r.id ≠ rule_id) := by
  simp only [remove_rule]
  split <;> rfl

/-- The in-memory rule list after `add_rule` is the old list with the new
rule appended. -/
theorem add_rule_rules (fresh nm pt rp mt nt : List Char) (st : ManagerState) :
    (add_rule fresh nm pt rp mt nt st).2.rules
      = st.rules ++ [ruleInit fresh nm pt rp mt nt none] := rfl

/-- The in-memory rule list after `update_rule` is the rebuilt loop output,
whether or not a save happened. -/
theorem update_rule_rules (rule_id : List Char) (kw : UpdateFields) (st : ManagerState) :
    (update_rule rule_id kw st).2.rules = (updateRules rule_id kw st.rules).2 := by
  simp only [update_rule]
  cases hp : (updateRules rule_id kw st.rules).1 <;> simp only [hp, save]

/-- When `update_rule` is not handed an `id` field, the ids of the list are
unchanged (only the first matching rule's other attributes change). -/
theorem updateRules_ids_of_id_none (rule_id : List Char) (kw : UpdateFields)
    (h : kw.id = none) (l : List Rule) :
    idsOf (updateRules rule_id kw l).2 = idsOf l := by
  induction l with
  | nil => rfl
  | cons r rest ih =>
    by_cases hr : r.id = rule_id
    · simp only [updateRules, if_pos hr, idsOf, List.map_cons, applyUpdate, h,
        Option.getD_none]
    · simp only [updateRules, if_neg hr, idsOf, List.map_cons, List.cons.injEq, true_and]
      exact ih

/-- Ids produced by `loadRules` when every stored record carries a nonempty
id: exactly the stored ids, in order. -/
theorem loadRules_ids (fs : Nat → List Char) (data : List RuleDict)
    (h : ∀ d ∈ data, ∃ i, d.id = some i ∧ i ≠ []) :
    idsOf (loadRules fs data) = data.map (fun d => d.id.getD []) := by
  induction data generalizing fs with
  | nil => rfl
  | cons d rest ih =>
    obtain ⟨i, hi, hne⟩ := h d (List.mem_cons_self d rest)
    have hie : i.isEmpty = false := by
      cases hx : i with
      | nil => exact absurd hx hne
      | cons a l => rfl
    simp only [loadRules, idsOf, List.map_cons, from_dict, ruleInit, hi,
      Option.getD_some, hie, Bool.false_eq_true, if_false, List.cons.injEq, true_and]
    exact ih (fun n => fs (n + 1)) (fun a ha => h a (List.mem_cons_of_mem d ha))

/-- A stored record with id `x`; a storage file holding it twice is a
well-formed rules file as far as `load` is concerned (`load` performs no
deduplication). -/
def dupDict : RuleDict :=
  { id := some ("x".data), name := ("n".data), pattern := ("p".data),
    replacement := ("q".data), match_type := some ("exact".data), notes := some [] }

/-- A manager whose in-memory list is empty (ids trivially pairwise
distinct) but whose storage file holds two records with the same id. -/
def stDupStored : ManagerState :=
  { rules := [], stored := [dupDict, dupDict] }

/-- Claim C8, counterexample: `load` does not preserve the id-uniqueness
invariant.  Starting from a state whose in-memory ids are pairwise distinct,
loading a storage file containing two records with the same id yields an
in-memory list with duplicate ids (`update_rule(other_id, id=existing_id)`
breaks the invariant the same way). -/
theorem load_breaks_id_uniqueness :
    (idsOf stDupStored.rules).Nodup
      ∧ ¬ (idsOf (load freshSupply stDupStored).rules).Nodup := by
  exact ⟨by decide, by decide⟩

/-- Claim C8, amended: id uniqueness is preserved by `remove_rule`
unconditionally; by `add_rule` provided the freshly generated uuid does not
already occur among the ids; by `update_rule` provided it is not handed an
`id` field; and it is established by `load` exactly when the stored records
carry pairwise-distinct (nonempty, present) ids.  It is not otherwise
enforced. -/
theorem rule_id_uniqueness_amended (st : ManagerState)
    (rid fresh nm pt rp mt nt : List Char) (kw : UpdateFields)
    (fs : Nat → List Char) (data : List RuleDict) :
    ((idsOf st.rules).Nodup → (idsOf (remove_rule rid st).2.rules).Nodup)
      ∧ ((idsOf st.rules).Nodup → fresh ∉ idsOf st.rules →
          (idsOf (add_rule fresh nm pt rp mt nt st).2.rules).Nodup)
      ∧ (kw.id = none → (idsOf st.rules).Nodup →
          (idsOf (update_rule rid kw st).2.rules).Nodup)
      ∧ ((∀ d ∈ data, ∃ i, d.id = some i ∧ i ≠ []) →
          (data.map (fun d => d.id.getD [])).Nodup →
          (idsOf (loadRules fs data)).Nodup) := by
  refine ⟨?_, ?_, ?_, ?_⟩
  · intro h
    rw [remove_rule_rules]
    simp only [idsOf] at h ⊢
    exact h.sublist (List.Sublist.map (fun r => r.id) (List.filter_sublist st.rules))
  · intro h hfresh
    rw [add_rule_rules]
    have hids : idsOf (st.rules ++ [ruleInit fresh nm pt rp mt nt none])
        = idsOf st.rules ++ [fresh] := by
      simp only [idsOf, List.map_append, List.map_cons, List.map_nil, ruleInit]
    rw [hids, List.nodup_append]
    exact ⟨h, List.nodup_singleton fresh,
      fun a ha hb => hfresh ((List.mem_singleton.mp hb) ▸ ha)⟩
  · intro hid h
    rw [update_rule_rules, updateRules_ids_of_id_none rid kw hid]
    exact h
  · intro h1 h2
    rw [loadRules_ids fs data h1]
    exact h2

/-- Witness for `rule_id_uniqueness_amended` at concrete inputs satisfying
every hypothesis. -/
theorem rule_id_uniqueness_witness :
    (idsOf (remove_rule ("zz".data) stOneRule).2.rules).Nodup
      ∧ (idsOf (add_rule ("uuid-3".data) ("m".data) ("p2".data) ("q2".data)
          ("exact".data) [] stOneRule).2.rules).Nodup
      ∧ (idsOf (update_rule ("uuid-1".data) { name := some ("m2".data) }
          stOneRule).2.rules).Nodup
      ∧ (idsOf (loadRules freshSupply [dupDict])).Nodup := by
  obtain ⟨h1, h2, h3, h4⟩ := rule_id_uniqueness_amended stOneRule ("zz".data)
    ("uuid-3".data) ("m".data) ("p2".data) ("q2".data) ("exact".data) []
    { name := some ("m2".data) } freshSupply [dupDict]
  refine ⟨h1 (by decide), h2 (by decide) (by decide), h3 rfl (by decide), h4 ?_ (by decide)⟩
  intro d hd
  rw [List.mem_singleton.mp hd]
  exact ⟨("x".data), rfl, by decide⟩

/-! ### C9 -/

/-- A paragraph whose pipeline output equals its text is returned as-is: no
run is cleared, written or created. -/
theorem processParagraph_unchanged (proc : List Char → Except Unit (List Char))
    (par : Paragraph) (h : proc (paraText par) = .ok (paraText par)) :
    processParagraph proc par = .ok par := by
  simp only [processParagraph, h, ne_eq, not_true_eq_false, if_false]

/-- A `processList` whose element step is the identity succeeds and returns
the list unchanged. -/
theorem processList_ok_id (g : A → Except Unit A) (l : List A)
    (h : ∀ x ∈ l, g x = .ok x) : processList g l = .ok l := by
  induction l with
  | nil => rfl
  | cons x xs ih =>
    simp only [processList, h x (List.mem_cons_self x xs),
      ih (fun a ha => h a (List.mem_cons_of_mem x ha))]

/-- When the text pipeline leaves every text unchanged, the whole traversal
succeeds and returns the document unchanged. -/
theorem processDocxWith_identity (proc : List Char → Except Unit (List Char))
    (h : ∀ t, proc t = .ok t) (d : Document) : processDocxWith proc d = .ok d := by
  have hpar : ∀ par, processParagraph proc par = .ok par :=
    fun par => processParagraph_unchanged proc par (h _)
  have hparas : ∀ ps, processParas proc ps = .ok ps :=
    fun ps => processList_ok_id _ ps (fun x _ => hpar x)
  have hcell : ∀ c, processCell proc c = .ok c := by
    intro c
    simp only [processCell, hparas]
  have hrow : ∀ r, processRow proc r = .ok r := by
    intro r
    simp only [processRow, processList_ok_id _ r.cells (fun x _ => hcell x)]
  have htable : ∀ t, processTable proc t = .ok t := by
    intro t
    simp only [processTable, processList_ok_id _ t.rows (fun x _ => hrow x)]
  have hsection : ∀ s, processSection proc s = .ok s := by
    intro s
    simp only [processSection, hparas]
  simp only [processDocxWith, hparas,
    processList_ok_id _ d.tables (fun x _ => htable x),
    processList_ok_id _ d.sections (fun x _ => hsection x)]

/-- Claim C9 (confirmed): a visited paragraph whose processed text equals
its original text is never rewritten — `process_docx` performs the write
only under `processed != original`, so the paragraph's runs are left
completely untouched; consequently, a pipeline that changes no text leaves
the whole document unchanged. -/
theorem unchanged_paragraph_never_rewritten :
    (∀ (proc : List Char → Except Unit (List Char)) (par : Paragraph),
        proc (paraText par) = .ok (paraText par) → processParagraph proc par = .ok par)
      ∧ (∀ (engine : RegexEngine) (p : DocProcessor) (b : Bool) (d : Document),
          (∀ t, process_text engine p t b = .ok t) → process_docx engine p b d = .ok d) :=
  ⟨processParagraph_unchanged,
    fun engine p b d h => processDocxWith_identity (fun t => process_text engine p t b) h d⟩

/-! ### C6 -/

/-- Two-section fixture paragraphs, pairwise distinct. -/
def paraH1 : Paragraph := { runs := [("h1".data)] }

/-- Footer paragraph of the first section. -/
def paraF1 : Paragraph := { runs := [("f1".data)] }

/-- Header paragraph of the second section. -/
def paraH2 : Paragraph := { runs := [("h2".data)] }

/-- Footer paragraph of the second section. -/
def paraF2 : Paragraph := { runs := [("f2".data)] }

/-- A document with no body paragraphs, no tables, and two sections, each
with one header paragraph and one footer paragraph. -/
def docTwoSections : Document :=
  { paragraphs := [], tables := [],
    sections :=
      [ { header := { paragraphs := [paraH1] }, footer := { paragraphs := [paraF1] } },
        { header := { paragraphs := [paraH2] }, footer := { paragraphs := [paraF2] } } ] }

/-- Witness that the two-section document makes the C9 paragraph guard and
the identity traversal observable on `process_docx` itself. -/
theorem unchanged_paragraph_witness :
    processParagraph (fun t => Except.ok t) paraH1 = .ok paraH1
      ∧ process_docx nullEngine dpEmpty true docTwoSections = .ok docTwoSections :=
  ⟨unchanged_paragraph_never_rewritten.1 (fun t => Except.ok t) paraH1 rfl,
    unchanged_paragraph_never_rewritten.2 nullEngine dpEmpty true docTwoSections
      (fun _ => rfl)⟩

/-- `processList` over an appended list is the two halves processed in
sequence. -/
theorem processList_append (g : A → Except Unit B) (l1 l2 : List A) :
    processList g (l1 ++ l2)
      = match processList g l1 with
        | .ok r1 =>
          (match processList g l2 with
            | .ok r2 => .ok (r1 ++ r2)
            | .error e => .error e)
        | .error e => .error e := by
  induction l1 with
  | nil =>
    simp only [List.nil_append, processList]
    cases processList g l2 <;> rfl
  | cons x xs ih =>
    simp only [List.cons_append, processList, List.append_eq]
    rw [ih]
    cases g x with
    | error e => rfl
    | ok y =>
      cases processList g xs with
      | error e => rfl
      | ok r1 =>
        cases processList g l2 with
        | error e => rfl
        | ok r2 => rfl

/-- A successfully processed cell's paragraphs are the processed paragraphs
of the original cell. -/
theorem processCell_paras (proc : List Char → Except Unit (List Char)) (c : Cell)
    (c' : Cell) (h : processCell proc c = .ok c') :
    processParas proc c.paragraphs = .ok c'.paragraphs := by
  unfold processCell at h
  cases hp : processParas proc c.paragraphs with
  | ok ps =>
    rw [hp] at h
    injection h with h2
    rw [← h2]
  | error e =>
    rw [hp] at h
    exact Except.noConfusion h

/-- Lifts a per-element correspondence through `processList` and `flatMap`:
if processing an element succeeds exactly when processing its paragraph list
succeeds (with matching outputs), then processing the flattened paragraph
sequence of a successfully processed list succeeds with the flattened
outputs. -/
theorem processParas_flatMap (proc : List Char → Except Unit (List Char))
    (G : A → Except Unit A) (f : A → List Paragraph)
    (hG : ∀ x y, G x = .ok y → processParas proc (f x) = .ok (f y))
    (l : List A) (l' : List A) (h : processList G l = .ok l') :
    processParas proc (l.flatMap f) = .ok (l'.flatMap f) := by
  induction l generalizing l' with
  | nil =>
    simp only [processList] at h
    injection h with h2
    rw [← h2]
    rfl
  | cons x xs ih =>
    simp only [processList] at h
    cases hx : G x with
    | error e => rw [hx] at h; exact Except.noConfusion h
    | ok y =>
      rw [hx] at h
      cases hxs : processList G xs with
      | error e => rw [hxs] at h; exact Except.noConfusion h
      | ok ys =>
        rw [hxs] at h
        injection h with h2
        rw [← h2]
        simp only [List.flatMap_cons]
        unfold processParas at hG ih ⊢
        rw [processList_append, hG x y hx, ih ys hxs]

/-- A successfully processed section's header-then-footer paragraphs are the
processed header-then-footer paragraphs of the original section. -/
theorem processSection_paras (proc : List Char → Except Unit (List Char))
    (s s' : Section) (h : processSection proc s = .ok s') :
    processParas proc (s.header.paragraphs ++ s.footer.paragraphs)
      = .ok (s'.header.paragraphs ++ s'.footer.paragraphs) := by
  unfold processSection at h
  cases hh : processParas proc s.header.paragraphs with
  | error e => rw [hh] at h; exact Except.noConfusion h
  | ok hs =>
    rw [hh] at h
    cases hf : processParas proc s.footer.paragraphs with
    | error e => rw [hf] at h; exact Except.noConfusion h
    | ok fs =>
      rw [hf] at h
      injection h with h2
      rw [← h2]
      unfold processParas at hh hf ⊢
      rw [processList_append, hh, hf]

/-- Row version of `processCell_paras`. -/
theorem processRow_paras (proc : List Char → Except Unit (List Char)) (r r' : Row)
    (h : processRow proc r = .ok r') :
    processParas proc (r.cells.flatMap fun c => c.paragraphs)
      = .ok (r'.cells.flatMap fun c => c.paragraphs) := by
  unfold processRow at h
  cases hp : processList (processCell proc) r.cells with
  | error e => rw [hp] at h; exact Except.noConfusion h
  | ok cs =>
    rw [hp] at h
    injection h with h2
    rw [← h2]
    exact processParas_flatMap proc (processCell proc) (fun c => c.paragraphs)
      (processCell_paras proc) r.cells cs hp

/-- Table version of `processCell_paras`. -/
theorem processTable_paras (proc : List Char → Except Unit (List Char)) (t t' : Table)
    (h : processTable proc t = .ok t') :
    processParas proc (t.rows.flatMap fun r => r.cells.flatMap fun c => c.paragraphs)
      = .ok (t'.rows.flatMap fun r => r.cells.flatMap fun c => c.paragraphs) := by
  unfold processTable at h
  cases hp : processList (processRow proc) t.rows with
  | error e => rw [hp] at h; exact Except.noConfusion h
  | ok rs =>
    rw [hp] at h
    injection h with h2
    rw [← h2]
    exact processParas_flatMap proc (processRow proc)
      (fun r => r.cells.flatMap fun c => c.paragraphs)
      (processRow_paras proc) t.rows rs hp

/-- A successful traversal processes exactly the paragraphs of
`docxVisitSequence`, in that order, and produces the visit sequence of the
output document. -/
theorem processDocxWith_visit (proc : List Char → Except Unit (List Char))
    (d d' : Document) (h : processDocxWith proc d = .ok d') :
    processParas proc (docxVisitSequence d) = .ok (docxVisitSequence d') := by
  unfold processDocxWith at h
  cases hb : processParas proc d.paragraphs with
  | error e => rw [hb] at h; exact Except.noConfusion h
  | ok body =>
    rw [hb] at h
    cases ht : processList (processTable proc) d.tables with
    | error e => rw [ht] at h; exact Except.noConfusion h
    | ok ts =>
      rw [ht] at h
      cases hs : processList (processSection proc) d.sections with
      | error e => rw [hs] at h; exact Except.noConfusion h
      | ok ss =>
        rw [hs] at h
        injection h with h2
        rw [← h2]
        have htp := processParas_flatMap proc (processTable proc)
          (fun t => t.rows.flatMap fun r => r.cells.flatMap fun c => c.paragraphs)
          (processTable_paras proc) d.tables ts ht
        have hsp := processParas_flatMap proc (processSection proc)
          (fun s => s.header.paragraphs ++ s.footer.paragraphs)
          (processSection_paras proc) d.sections ss hs
        unfold docxVisitSequence
        unfold processParas at hb htp hsp ⊢
        rw [processList_append, processList_append, hb, htp, hsp]

/-- Claim C6, counterexample: with two sections the code visits the first
section's header then its footer before moving to the second section
(`H1, F1, H2, F2`), whereas the claim (and the spec's numbered traversal
order) requires all headers before all footers (`H1, H2, F1, F2`). -/
theorem visit_order_interleaves_headers_and_footers :
    docxVisitSequence docTwoSections = [paraH1, paraF1, paraH2, paraF2]
      ∧ specVisitSequence docTwoSections = [paraH1, paraH2, paraF1, paraF2]
      ∧ docxVisitSequence docTwoSections ≠ specVisitSequence docTwoSections := by
  exact ⟨rfl, rfl, by decide⟩

/-- Claim C6, amended: `process_docx` visits every text-bearing paragraph
exactly once, in this order: body paragraphs in document order; then
table-cell paragraphs (tables, rows, cells, paragraphs in order); then, for
each section in section order, that section's header paragraphs followed by
that section's footer paragraphs.  Formally: a successful `process_docx` run
processes precisely the paragraphs of `docxVisitSequence d`, in sequence,
and that sequence is the stated concatenation. -/
theorem process_docx_visit_order (engine : RegexEngine) (p : DocProcessor) (b : Bool)
    (d d' : Document) (h : process_docx engine p b d = .ok d') :
    processParas (fun t => process_text engine p t b) (docxVisitSequence d)
        = .ok (docxVisitSequence d')
      ∧ docxVisitSequence d
        = d.paragraphs
            ++ (d.tables.flatMap fun t => t.rows.flatMap fun r =>
                  r.cells.flatMap fun c => c.paragraphs)
            ++ (d.sections.flatMap fun s => s.header.paragraphs ++ s.footer.paragraphs) :=
  ⟨processDocxWith_visit (fun t => process_text engine p t b) d d' h, rfl⟩

/-- Witness for `process_docx_visit_order` on the two-section document with
an identity pipeline. -/
theorem process_docx_visit_order_witness :
    processParas (fun t => process_text nullEngine dpEmpty t true)
        (docxVisitSequence docTwoSections)
      = .ok (docxVisitSequence docTwoSections) :=
  (process_docx_visit_order nullEngine dpEmpty true docTwoSections docTwoSections rfl).1

end Verbatim
